import Mathlib

/-!
Verification development for the grasshopper UDP relay.

Bytes are modelled as natural numbers below 256, byte buffers as `List Nat`,
and 32-bit machine words as natural numbers reduced modulo 2^32.
-/

namespace Grasshopper

/- Constants from hopper.go. -/

def nonceSize : Nat := 8

def nonceOffset : Nat := 0

def checksumSize : Nat := 8

def checksumOffset : Nat := nonceSize

def headerSize : Nat := nonceSize + checksumSize

def mtuLimit : Nat := 1500

/-! MD5, modelling Go's `crypto/md5` `md5.Sum` used by the packet codec. -/

/- Reduce a natural number to a 32-bit word. -/
def u32 (x : Nat) : Nat := x % 4294967296

/- Left-rotation of a 32-bit word by s bits (0 < s < 32). -/
def rotl32 (x s : Nat) : Nat :=
  (x * 2 ^ s) % 4294967296 + (x % 4294967296) / 2 ^ (32 - s)

/- Bitwise complement of a 32-bit word. -/
def not32 (x : Nat) : Nat := (x % 4294967296) ^^^ 4294967295

/- Little-endian byte decomposition of a 32-bit word. -/
def le4 (n : Nat) : List Nat :=
  [n % 256, n / 256 % 256, n / 65536 % 256, n / 16777216 % 256]

/- Little-endian byte decomposition of a 64-bit length field. -/
def le8 (n : Nat) : List Nat :=
  [n % 256, n / 2 ^ 8 % 256, n / 2 ^ 16 % 256, n / 2 ^ 24 % 256,
   n / 2 ^ 32 % 256, n / 2 ^ 40 % 256, n / 2 ^ 48 % 256, n / 2 ^ 56 % 256]

/- Group bytes into little-endian 32-bit words. -/
def toWordsLE : List Nat → List Nat
  | b0 :: b1 :: b2 :: b3 :: rest =>
      (b0 + 256 * b1 + 65536 * b2 + 16777216 * b3) :: toWordsLE rest
  | _ => []

def md5F (b c d : Nat) : Nat := (b &&& c) ||| (not32 b &&& d)

def md5G (b c d : Nat) : Nat := (d &&& b) ||| (not32 d &&& c)

def md5H (b c d : Nat) : Nat := b ^^^ c ^^^ d

def md5I (b c d : Nat) : Nat := c ^^^ (b ||| not32 d)

/- Per-step sine-derived constants of MD5. -/
def md5K : List Nat :=
  [0xd76aa478, 0xe8c7b756, 0x242070db, 0xc1bdceee,
   0xf57c0faf, 0x4787c62a, 0xa8304613, 0xfd469501,
   0x698098d8, 0x8b44f7af, 0xffff5bb1, 0x895cd7be,
   0x6b901122, 0xfd987193, 0xa679438e, 0x49b40821,
   0xf61e2562, 0xc040b340, 0x265e5a51, 0xe9b6c7aa,
   0xd62f105d, 0x02441453, 0xd8a1e681, 0xe7d3fbc8,
   0x21e1cde6, 0xc33707d6, 0xf4d50d87, 0x455a14ed,
   0xa9e3e905, 0xfcefa3f8, 0x676f02d9, 0x8d2a4c8a,
   0xfffa3942, 0x8771f681, 0x6d9d6122, 0xfde5380c,
   0xa4beea44, 0x4bdecfa9, 0xf6bb4b60, 0xbebfbc70,
   0x289b7ec6, 0xeaa127fa, 0xd4ef3085, 0x04881d05,
   0xd9d4d039, 0xe6db99e5, 0x1fa27cf8, 0xc4ac5665,
   0xf4292244, 0x432aff97, 0xab9423a7, 0xfc93a039,
   0x655b59c3, 0x8f0ccc92, 0xffeff47d, 0x85845dd1,
   0x6fa87e4f, 0xfe2ce6e0, 0xa3014314, 0x4e0811a1,
   0xf7537e82, 0xbd3af235, 0x2ad7d2bb, 0xeb86d391]

/- Per-step rotation amounts of MD5. -/
def md5S : List Nat :=
  [7, 12, 17, 22, 7, 12, 17, 22, 7, 12, 17, 22, 7, 12, 17, 22,
   5, 9, 14, 20, 5, 9, 14, 20, 5, 9, 14, 20, 5, 9, 14, 20,
   4, 11, 16, 23, 4, 11, 16, 23, 4, 11, 16, 23, 4, 11, 16, 23,
   6, 10, 15, 21, 6, 10, 15, 21, 6, 10, 15, 21, 6, 10, 15, 21]

/- One of the 64 MD5 steps on the running state (a, b, c, d). -/
def md5Round (M : List Nat) (st : Nat × Nat × Nat × Nat) (i : Nat) :
    Nat × Nat × Nat × Nat :=
  let (a, b, c, d) := st
  let f := if i < 16 then md5F b c d
           else if i < 32 then md5G b c d
           else if i < 48 then md5H b c d
           else md5I b c d
  let g := if i < 16 then i
           else if i < 32 then (5 * i + 1) % 16
           else if i < 48 then (3 * i + 5) % 16
           else (7 * i) % 16
  let tmp := u32 (a + f + md5K.getD i 0 + M.getD g 0)
  (d, u32 (b + rotl32 tmp (md5S.getD i 0)), b, c)

/- Compression of one 64-byte block into the chaining state. -/
def md5Compress (st0 : Nat × Nat × Nat × Nat) (block : List Nat) :
    Nat × Nat × Nat × Nat :=
  let M := toWordsLE block
  let st := (List.range 64).foldl (md5Round M) st0
  let (a0, b0, c0, d0) := st0
  let (a, b, c, d) := st
  (u32 (a0 + a), u32 (b0 + b), u32 (c0 + c), u32 (d0 + d))

/- Merkle–Damgard padding: a 0x80 byte, zeros to 56 mod 64, then the
bit length in 8 little-endian bytes. -/
def md5Pad (msg : List Nat) : List Nat :=
  msg ++ [0x80] ++ List.replicate ((120 - ((msg.length + 1) % 64)) % 64) 0 ++
    le8 (8 * msg.length)

/- Fold the compression function over nblocks consecutive 64-byte blocks. -/
def md5Blocks (st : Nat × Nat × Nat × Nat) (bs : List Nat) (nblocks : Nat) :
    Nat × Nat × Nat × Nat :=
  match nblocks with
  | 0 => st
  | n + 1 => md5Blocks (md5Compress st (bs.take 64)) (bs.drop 64) n

/- Serialize the final state as 16 little-endian digest bytes. -/
def md5StateBytes (st : Nat × Nat × Nat × Nat) : List Nat :=
  let (a, b, c, d) := st
  le4 a ++ le4 b ++ le4 c ++ le4 d

/- The 16-byte MD5 digest of a byte string (Go: md5.Sum). -/
def md5sum (msg : List Nat) : List Nat :=
  let padded := md5Pad msg
  md5StateBytes
    (md5Blocks (0x67452301, 0xefcdab89, 0x98badcfe, 0x10325476)
      padded (padded.length / 64))

/-!
Cipher adapters.  The Go `BlockCrypt` interface exposes `Encrypt(dst, src)`
and `Decrypt(dst, src)`; the relay always calls them in place on one buffer
(dst == src), so each transform maps a byte range to one of equal length
(spec section 4.1).  We model an adapter as a pair of length-preserving
functions on byte lists; a nil Go interface value is `Option.none`.
-/

structure BlockCrypt where
  encrypt : List Nat → List Nat
  decrypt : List Nat → List Nat
  encrypt_length : ∀ b, (encrypt b).length = b.length
  decrypt_length : ∀ b, (decrypt b).length = b.length

/- Packet-codec errors (hopper.go: errChecksum). -/
inductive CodecErr where
  | errChecksum
deriving DecidableEq

/-
decryptPacket from hopper.go.  The result models the Go pair
(data []byte, err error): the first component is `none` exactly when the
returned slice is nil.  Note the source has no `else` branch for a non-nil
crypter with a short packet, so that case returns (nil, nil).
-/
def decryptPacket (crypter : Option BlockCrypt) (packet : List Nat) :
    Option (List Nat) × Option CodecErr :=
  match crypter with
  | some c =>
      if headerSize ≤ packet.length then
        let dec := c.decrypt packet
        let checksum := md5sum (dec.drop headerSize)
        if checksum.take checksumSize ≠
            (dec.drop checksumOffset).take checksumSize then
          (none, some CodecErr.errChecksum)
        else
          (some (dec.drop headerSize), none)
      else
        (none, none)
  | none => (some packet, none)

/-
encryptPacket from hopper.go.  The `nonce` argument models the 8 bytes the
source draws from the CSPRNG (io.ReadFull(rand.Reader, packet[0:8])); the
built buffer is nonce, then the first 8 bytes of MD5 of the payload, then
the payload, all encrypted in place.  A nil crypter returns the data as is.
-/
def encryptPacket (crypter : Option BlockCrypt) (nonce : List Nat)
    (data : List Nat) : List Nat :=
  match crypter with
  | some c => c.encrypt (nonce ++ (md5sum data).take checksumSize ++ data)
  | none => data

/-!
SHA1, HMAC-SHA1 and PBKDF2, modelling Go's `crypto/sha1`, `crypto/hmac`
and `golang.org/x/crypto/pbkdf2` used by the start command's key
derivation.
-/

/- Big-endian byte decomposition of a 32-bit word. -/
def be4 (n : Nat) : List Nat :=
  [n / 16777216 % 256, n / 65536 % 256, n / 256 % 256, n % 256]

/- Big-endian byte decomposition of a 64-bit length field. -/
def be8 (n : Nat) : List Nat :=
  [n / 2 ^ 56 % 256, n / 2 ^ 48 % 256, n / 2 ^ 40 % 256, n / 2 ^ 32 % 256,
   n / 2 ^ 24 % 256, n / 2 ^ 16 % 256, n / 2 ^ 8 % 256, n % 256]

/- Group bytes into big-endian 32-bit words. -/
def toWordsBE : List Nat → List Nat
  | b0 :: b1 :: b2 :: b3 :: rest =>
      (16777216 * b0 + 65536 * b1 + 256 * b2 + b3) :: toWordsBE rest
  | _ => []

/- SHA1 message schedule: extend the 16 block words by n further words. -/
def sha1Extend (w : List Nat) (n : Nat) : List Nat :=
  match n with
  | 0 => w
  | k + 1 =>
      sha1Extend
        (w ++ [rotl32
          (w.getD (w.length - 3) 0 ^^^ w.getD (w.length - 8) 0 ^^^
           w.getD (w.length - 14) 0 ^^^ w.getD (w.length - 16) 0) 1]) k

/- Round function of SHA1 for step t. -/
def sha1F (t b c d : Nat) : Nat :=
  if t < 20 then (b &&& c) ||| (not32 b &&& d)
  else if t < 40 then b ^^^ c ^^^ d
  else if t < 60 then (b &&& c) ||| (b &&& d) ||| (c &&& d)
  else b ^^^ c ^^^ d

/- Round constant of SHA1 for step t. -/
def sha1KC (t : Nat) : Nat :=
  if t < 20 then 0x5A827999
  else if t < 40 then 0x6ED9EBA1
  else if t < 60 then 0x8F1BBCDC
  else 0xCA62C1D6

/- One of the 80 SHA1 steps on the running state (a, b, c, d, e). -/
def sha1Round (w : List Nat) (st : Nat × Nat × Nat × Nat × Nat) (t : Nat) :
    Nat × Nat × Nat × Nat × Nat :=
  let (a, b, c, d, e) := st
  (u32 (rotl32 a 5 + sha1F t b c d + e + sha1KC t + w.getD t 0),
   a, rotl32 b 30, c, d)

/- Compression of one 64-byte block into the chaining state. -/
def sha1Compress (st0 : Nat × Nat × Nat × Nat × Nat) (block : List Nat) :
    Nat × Nat × Nat × Nat × Nat :=
  let w := sha1Extend (toWordsBE block) 64
  let st := (List.range 80).foldl (sha1Round w) st0
  let (a0, b0, c0, d0, e0) := st0
  let (a, b, c, d, e) := st
  (u32 (a0 + a), u32 (b0 + b), u32 (c0 + c), u32 (d0 + d), u32 (e0 + e))

/- SHA1 padding: like MD5 but with a big-endian bit-length field. -/
def sha1Pad (msg : List Nat) : List Nat :=
  msg ++ [0x80] ++ List.replicate ((120 - ((msg.length + 1) % 64)) % 64) 0 ++
    be8 (8 * msg.length)

/- Fold the compression function over nblocks consecutive 64-byte blocks. -/
def sha1Blocks (st : Nat × Nat × Nat × Nat × Nat) (bs : List Nat)
    (nblocks : Nat) : Nat × Nat × Nat × Nat × Nat :=
  match nblocks with
  | 0 => st
  | n + 1 => sha1Blocks (sha1Compress st (bs.take 64)) (bs.drop 64) n

/- Serialize the final state as 20 big-endian digest bytes. -/
def sha1StateBytes (st : Nat × Nat × Nat × Nat × Nat) : List Nat :=
  let (a, b, c, d, e) := st
  be4 a ++ be4 b ++ be4 c ++ be4 d ++ be4 e

/- The 20-byte SHA1 digest of a byte string (Go: sha1.Sum). -/
def sha1sum (msg : List Nat) : List Nat :=
  let padded := sha1Pad msg
  sha1StateBytes
    (sha1Blocks (0x67452301, 0xEFCDAB89, 0x98BADCFE, 0x10325476, 0xC3D2E1F0)
      padded (padded.length / 64))

/- HMAC-SHA1 (Go: crypto/hmac with sha1.New; block size 64 bytes). -/
def hmacSha1 (key msg : List Nat) : List Nat :=
  let k0 := if 64 < key.length then sha1sum key else key
  let k1 := k0 ++ List.replicate (64 - k0.length) 0
  sha1sum ((k1.map (fun b => b ^^^ 0x5c)) ++
    sha1sum ((k1.map (fun b => b ^^^ 0x36)) ++ msg))

/- Bytewise xor of two equal-length byte strings. -/
def xorBytes (a b : List Nat) : List Nat := List.zipWith (fun x y => x ^^^ y) a b

/- Inner PBKDF2 loop: n further PRF iterations, xor-accumulated into T. -/
def pbkdf2Inner (pw U T : List Nat) (n : Nat) : List Nat :=
  match n with
  | 0 => T
  | k + 1 =>
      let U' := hmacSha1 pw U
      pbkdf2Inner pw U' (xorBytes T U') k

/- One PBKDF2 output block T_blockIdx (blockIdx counted from 1). -/
def pbkdf2Block (pw salt : List Nat) (iters blockIdx : Nat) : List Nat :=
  let U1 := hmacSha1 pw (salt ++ be4 blockIdx)
  pbkdf2Inner pw U1 U1 (iters - 1)

/- PBKDF2 with HMAC-SHA1 as the PRF (Go: pbkdf2.Key(pw, salt, iters, dkLen, sha1.New)). -/
def pbkdf2HmacSha1 (pw salt : List Nat) (iters dkLen : Nat) : List Nat :=
  let numBlocks := (dkLen + 19) / 20
  (((List.range numBlocks).map
      (fun i => pbkdf2Block pw salt iters (i + 1))).flatten).take dkLen

/-!
Relay engine model (hopper.go).  A `net.Addr` is identified by its string
form (the session-table key is `raddr.String()`); an upstream `net.Conn`
obtained from `net.Dial` is identified by a fresh id plus the dialed
next-hop address.  The non-deterministic inputs consumed by `clientIn`
(the CSPRNG nonce for `encryptPacket`, the `mrand.Intn` draw for next-hop
selection, and whether `net.Dial` succeeds) are passed in explicitly.
-/

structure NetAddr where
  str : String
deriving DecidableEq

structure Conn where
  id : Nat
  remote : String
deriving DecidableEq

/- The visible side effects issued through the gaio watcher and the listen
socket: watcher.WriteTimeout, watcher.ReadTimeout, and l.conn.WriteTo. -/
inductive Event where
  | writeTimeout (ctx : NetAddr) (conn : Conn) (data : List Nat)
  | readTimeout (ctx : NetAddr) (conn : Conn)
  | clientWrite (addr : NetAddr) (data : List Nat)
deriving DecidableEq

/- The session table l.incomingConnections: client address string form to
the connection to the next hop.  Modelled extensionally. -/
def IncomingConnections : Type := String → Option Conn

/- addClient from hopper.go: incomingConnections[raddr.String()] = conn. -/
def addClient (tbl : IncomingConnections) (raddr : NetAddr) (conn : Conn) :
    IncomingConnections :=
  fun k => if k = raddr.str then some conn else tbl k

/- removeClient from hopper.go: delete(incomingConnections, raddr.String()). -/
def removeClient (tbl : IncomingConnections) (raddr : NetAddr) :
    IncomingConnections :=
  fun k => if k = raddr.str then none else tbl k

/- The per-listener configuration relevant to packet handling: the two
crypters, the next-hop list, and the two optional callbacks.  A callback
returning `none` models a Go callback returning a nil slice. -/
structure HopCfg where
  crypterIn : Option BlockCrypt
  crypterOut : Option BlockCrypt
  nextHops : List String
  onClientIn : Option (NetAddr → List Nat → Option (List Nat))
  onNextHopIn : Option (String → NetAddr → List Nat → Option (List Nat))

/- The first half of clientIn: decrypt, then the onClientIn callback.
`none` means the packet is dropped (decode error, or callback blackhole);
`some d` is the data that proceeds to re-encryption and forwarding.  In
the no-callback case a nil slice (short-frame fallthrough) proceeds and
behaves as an empty payload downstream. -/
def clientPipeline (cfg : HopCfg) (data : List Nat) (raddr : NetAddr) :
    Option (List Nat) :=
  match decryptPacket cfg.crypterIn data with
  | (_, some _) => none
  | (d, none) =>
      match cfg.onClientIn with
      | some cb => cb raddr (d.getD [])
      | none => some (d.getD [])

/- Per-datagram inputs of one clientIn call. -/
structure Input where
  data : List Nat
  raddr : NetAddr
  nonce : List Nat
  rnd : Nat
  dialOk : Bool

/- Result of one clientIn call: the updated session table, the next fresh
connection id, and the I/O operations issued, in order. -/
structure StepOut where
  tbl : IncomingConnections
  nextId : Nat
  events : List Event

/-
clientIn from hopper.go: decrypt (drop on error), apply the callback
(drop on nil), re-encrypt, then either write on the existing session's
connection, or pick nextHops[mrand.Intn(len(nextHops))], dial it (drop on
dial error), register the client, and arm a read plus the first write.
-/
def clientIn (cfg : HopCfg) (tbl : IncomingConnections) (nextId : Nat)
    (inp : Input) : StepOut :=
  match clientPipeline cfg inp.data inp.raddr with
  | none => ⟨tbl, nextId, []⟩
  | some d =>
      let out := encryptPacket cfg.crypterOut inp.nonce d
      match tbl inp.raddr.str with
      | some conn => ⟨tbl, nextId, [Event.writeTimeout inp.raddr conn out]⟩
      | none =>
          if inp.dialOk then
            let nextHop := cfg.nextHops.getD
              (inp.rnd % cfg.nextHops.length) ""
            let conn : Conn := ⟨nextId, nextHop⟩
            ⟨addClient tbl inp.raddr conn, nextId + 1,
             [Event.readTimeout inp.raddr conn,
              Event.writeTimeout inp.raddr conn out]⟩
          else ⟨tbl, nextId, []⟩

/- The ingress loop: clientIn applied to a sequence of datagrams, with the
issued operations concatenated in order. -/
def clientInTrace (cfg : HopCfg) (tbl : IncomingConnections) (nextId : Nat) :
    List Input → StepOut
  | [] => ⟨tbl, nextId, []⟩
  | inp :: rest =>
      let s := clientIn cfg tbl nextId inp
      let r := clientInTrace cfg s.tbl s.nextId rest
      ⟨r.tbl, r.nextId, s.events ++ r.events⟩

/- One completion delivered by watcher.WaitIO: its operation kind, error
flag, connection, context (the client address), and the received bytes
res.Buffer[:res.Size] for reads. -/
structure IOResult where
  isWrite : Bool
  errored : Bool
  conn : Conn
  ctx : NetAddr
  data : List Nat

/-
The per-completion body of switcher from hopper.go.  A failed write or
read removes the client.  A successful read decrypts under crypterOut —
on error the loop continues to the next completion (note: without
re-arming the read) — then applies the onNextHopIn callback, forwards a
non-nil result to the client re-encrypted under crypterIn, and re-arms
the read on the same connection.  `nonce` models the CSPRNG bytes used by
the re-encryption.
-/
def switcherDispatch (cfg : HopCfg) (tbl : IncomingConnections)
    (res : IOResult) (nonce : List Nat) :
    IncomingConnections × List Event :=
  if res.isWrite then
    if res.errored then (removeClient tbl res.ctx, []) else (tbl, [])
  else
    if res.errored then (removeClient tbl res.ctx, [])
    else
      match decryptPacket cfg.crypterOut res.data with
      | (_, some _) => (tbl, [])
      | (d, none) =>
          let d1 := match cfg.onNextHopIn with
            | some cb => cb res.conn.remote res.ctx (d.getD [])
            | none => d
          let evs := match d1 with
            | some d2 =>
                [Event.clientWrite res.ctx
                  (encryptPacket cfg.crypterIn nonce d2)]
            | none => []
          (tbl, evs ++ [Event.readTimeout res.ctx res.conn])

/-!
A byte-buffer heap, to express which buffers encryptPacket writes.  The
heap is a list of buffers addressed by index; `encryptPacketHeap` is the
body of encryptPacket from hopper.go with every buffer operation explicit:
it allocates a fresh packet buffer, copies the payload at offset 16, fills
the nonce at offset 0, writes the truncated MD5 at offset 8, and encrypts
the packet buffer in place.  The payload buffer is only ever read.
-/

abbrev Heap : Type := List (List Nat)

def Heap.bufAt (h : Heap) (r : Nat) : List Nat := h.getD r []

def Heap.setBuf (h : Heap) (r : Nat) (v : List Nat) : Heap := h.set r v

/- Overwrite buf[off : off + src.length] with src (Go: copy(buf[off:], src)
or io.ReadFull into that range, in the cases used here where the range
fits inside buf). -/
def writeAt (buf : List Nat) (off : Nat) (src : List Nat) : List Nat :=
  buf.take off ++ src ++ buf.drop (off + src.length)

def encryptPacketHeap (crypter : Option BlockCrypt) (nonce : List Nat)
    (h : Heap) (dataRef : Nat) : Heap × Nat :=
  match crypter with
  | some c =>
      let data := h.bufAt dataRef
      let pRef := h.length
      let h1 := h ++ [List.replicate (data.length + headerSize) 0]
      let h2 := h1.setBuf pRef (writeAt (h1.bufAt pRef) headerSize data)
      let h3 := h2.setBuf pRef (writeAt (h2.bufAt pRef) nonceOffset nonce)
      let cks := (md5sum ((h3.bufAt pRef).drop headerSize)).take checksumSize
      let h4 := h3.setBuf pRef (writeAt (h3.bufAt pRef) checksumOffset cks)
      let h5 := h4.setBuf pRef (c.encrypt (h4.bufAt pRef))
      (h5, pRef)
  | none => (h, dataRef)

/-!
Command layer (cmd/grasshopper/cmd).  Key derivation and cipher-name
validation from start.go, and the flag defaults from root.go.
-/

/- SALT from start.go. -/
def SALT : String := "GRASSHOPPER"

/- UTF-8 bytes of one code point. -/
def utf8Char (c : Nat) : List Nat :=
  if c < 0x80 then [c]
  else if c < 0x800 then [0xC0 + c / 64, 0x80 + c % 64]
  else if c < 0x10000 then
    [0xE0 + c / 4096, 0x80 + c / 64 % 64, 0x80 + c % 64]
  else
    [0xF0 + c / 262144, 0x80 + c / 4096 % 64, 0x80 + c / 64 % 64,
     0x80 + c % 64]

/- The bytes of a Go string (Go: []byte(s), the UTF-8 encoding). -/
def strBytes (s : String) : List Nat :=
  (s.toList.map (fun ch => utf8Char ch.toNat)).flatten

/- The configuration fields consumed by the start command's key
derivation. -/
structure StartKeys where
  KI : String
  KO : String

/- start.go: passIn = pbkdf2.Key([]byte(config.KI), []byte(SALT), 4096, 32, sha1.New). -/
def startPassIn (cfg : StartKeys) : List Nat :=
  pbkdf2HmacSha1 (strBytes cfg.KI) (strBytes SALT) 4096 32

/- start.go: passOut = pbkdf2.Key([]byte(config.KO), []byte(SALT), 4096, 32, sha1.New). -/
def startPassOut (cfg : StartKeys) : List Nat :=
  pbkdf2HmacSha1 (strBytes cfg.KO) (strBytes SALT) 4096 32

/- allCryptoMethods from start.go. -/
def allCryptoMethods : List String :=
  ["none", "sm4", "tea", "aes", "aes-128", "aes-192", "blowfish", "twofish",
   "cast5", "3des", "xtea", "salsa20"]

/- Default value of the --ci flag (root.go). -/
def defaultCI : String := "qpp"

/- Default value of the --co flag (root.go). -/
def defaultCO : String := "qpp"

/- start.go validates each configured method with
slices.Contains(allCryptoMethods, m); on failure it calls log.Fatal,
which exits the process with a non-zero status.  This predicate is true
exactly when both checks pass. -/
def startCipherValidationPasses (ci co : String) : Bool :=
  allCryptoMethods.contains ci && allCryptoMethods.contains co

/-!
Concrete fixtures for the closed instances below: an adapter whose
transform is the identity permutation (a legal length-preserving
BlockCrypt), an empty session table, an all-zero nonce, and two listener
configurations.
-/

def idCrypt : BlockCrypt := ⟨fun b => b, fun b => b, fun _ => rfl, fun _ => rfl⟩

def emptyTable : IncomingConnections := fun _ => none

def nonce0 : List Nat := List.replicate 8 0

/- Both crypters active, one next hop, no callbacks. -/
def cfgBoth : HopCfg := ⟨some idCrypt, some idCrypt, ["10.0.0.1:3000"], none, none⟩

/- No crypters, one next hop, no callbacks. -/
def cfgPlain : HopCfg := ⟨none, none, ["10.0.0.1:3000"], none, none⟩

/- A table holding one session for client address "a". -/
def tableA : IncomingConnections := addClient emptyTable ⟨"a"⟩ ⟨0, "10.0.0.1:3000"⟩

/-! Auxiliary lemmas. -/

theorem md5sum_length (msg : List Nat) : (md5sum msg).length = 16 := by
  simp only [md5sum]
  generalize md5Blocks _ _ _ = st
  obtain ⟨a, b, c, d⟩ := st
  simp [md5StateBytes, le4]

theorem md5tag_length (p : List Nat) :
    ((md5sum p).take checksumSize).length = checksumSize := by
  simp [List.length_take, md5sum_length, checksumSize]

theorem sha1sum_length (msg : List Nat) : (sha1sum msg).length = 20 := by
  simp only [sha1sum]
  generalize sha1Blocks _ _ _ = st
  obtain ⟨a, b, c, d, e⟩ := st
  simp [sha1StateBytes, be4]

theorem hmacSha1_length (key msg : List Nat) : (hmacSha1 key msg).length = 20 := by
  simp only [hmacSha1]
  exact sha1sum_length _

theorem pbkdf2Inner_length (pw : List Nat) :
    ∀ (n : Nat) (U T : List Nat), T.length = 20 →
      (pbkdf2Inner pw U T n).length = 20 := by
  intro n
  induction n with
  | zero => intro U T hT; simpa [pbkdf2Inner] using hT
  | succ k ih =>
      intro U T hT
      simp only [pbkdf2Inner]
      exact ih _ _ (by simp [xorBytes, hT, hmacSha1_length])

theorem pbkdf2Block_length (pw salt : List Nat) (iters i : Nat) :
    (pbkdf2Block pw salt iters i).length = 20 := by
  simp only [pbkdf2Block]
  exact pbkdf2Inner_length pw _ _ _ (hmacSha1_length _ _)

theorem pbkdf2_dkLen32_length (pw salt : List Nat) (iters : Nat) :
    (pbkdf2HmacSha1 pw salt iters 32).length = 32 := by
  simp only [pbkdf2HmacSha1]
  rw [show (32 + 19) / 20 = 2 from rfl,
    show List.range 2 = [0, 1] from rfl]
  simp [pbkdf2Block_length]

/- Heap access lemmas. -/

theorem bufAt_setBuf_self :
    ∀ (h : Heap) (r : Nat) (v : List Nat), r < h.length →
      (h.setBuf r v).bufAt r = v := by
  intro h
  induction h with
  | nil => intro r v hr; simp at hr
  | cons x t ih =>
      intro r v hr
      cases r with
      | zero => rfl
      | succ r' => exact ih r' v (by simpa using hr)

theorem bufAt_setBuf_ne :
    ∀ (h : Heap) (r j : Nat) (v : List Nat), j ≠ r →
      (h.setBuf r v).bufAt j = h.bufAt j := by
  intro h
  induction h with
  | nil => intro r j v _; cases r <;> rfl
  | cons x t ih =>
      intro r j v hne
      cases r with
      | zero =>
          cases j with
          | zero => exact absurd rfl hne
          | succ j' => rfl
      | succ r' =>
          cases j with
          | zero => rfl
          | succ j' => exact ih r' j' v (fun hc => hne (by simp [hc]))

theorem bufAt_append_lt (h h' : Heap) (j : Nat) (hj : j < h.length) :
    (h ++ h').bufAt j = h.bufAt j :=
  List.getD_append h h' [] j hj

theorem bufAt_append_self (h : Heap) (v : List Nat) :
    (h ++ [v]).bufAt h.length = v := by
  have hx := List.getD_append_right h [v] [] h.length (Nat.le_refl _)
  rw [Nat.sub_self] at hx
  exact hx

theorem bufAt_chain1 (h : Heap) (v x : List Nat) :
    ((h ++ [v]).setBuf h.length x).bufAt h.length = x :=
  bufAt_setBuf_self _ _ _ (by
    simp only [List.length_append, List.length_cons, List.length_nil]
    omega)

theorem bufAt_chain2 (h : Heap) (v x y : List Nat) :
    (((h ++ [v]).setBuf h.length x).setBuf h.length y).bufAt h.length = y :=
  bufAt_setBuf_self _ _ _ (by
    simp only [Heap.setBuf, List.length_set, List.length_append,
      List.length_cons, List.length_nil]
    omega)

theorem bufAt_chain3 (h : Heap) (v x y z : List Nat) :
    (((((h ++ [v]).setBuf h.length x).setBuf h.length y).setBuf
        h.length z)).bufAt h.length = z :=
  bufAt_setBuf_self _ _ _ (by
    simp only [Heap.setBuf, List.length_set, List.length_append,
      List.length_cons, List.length_nil]
    omega)

theorem bufAt_chain4 (h : Heap) (v x y z w : List Nat) :
    ((((((h ++ [v]).setBuf h.length x).setBuf h.length y).setBuf
        h.length z)).setBuf h.length w).bufAt h.length = w :=
  bufAt_setBuf_self _ _ _ (by
    simp only [Heap.setBuf, List.length_set, List.length_append,
      List.length_cons, List.length_nil]
    omega)

/- One clientIn step preserves an existing session entry, and every write it
issues in that client's context goes to that session's connection. -/
theorem clientIn_stable_step (cfg : HopCfg) (tbl : IncomingConnections)
    (nid : Nat) (inp : Input) (raddr : NetAddr) (conn : Conn)
    (hc : tbl raddr.str = some conn) :
    (clientIn cfg tbl nid inp).tbl raddr.str = some conn ∧
    (∀ ctx c d, Event.writeTimeout ctx c d ∈ (clientIn cfg tbl nid inp).events →
      ctx.str = raddr.str → c = conn) := by
  cases hp : clientPipeline cfg inp.data inp.raddr with
  | none =>
      simp only [clientIn, hp]
      exact ⟨hc, by intro ctx c d hmem _; exact absurd hmem (List.not_mem_nil _)⟩
  | some d =>
      cases ht : tbl inp.raddr.str with
      | some conn2 =>
          simp only [clientIn, hp, ht]
          refine ⟨hc, ?_⟩
          intro ctx c d2 hmem hctx
          rw [List.mem_singleton] at hmem
          simp only [Event.writeTimeout.injEq] at hmem
          obtain ⟨h1, h2, _⟩ := hmem
          rw [h1] at hctx
          rw [← hctx] at hc
          exact h2.trans (Option.some.inj (ht.symm.trans hc))
      | none =>
          have hne : raddr.str ≠ inp.raddr.str := by
            intro he
            rw [he, ht] at hc
            exact Option.noConfusion hc
          cases hd : inp.dialOk with
          | false =>
              simp only [clientIn, hp, ht, hd, Bool.false_eq_true, if_false]
              exact ⟨hc, by intro ctx c d2 hmem _
                            exact absurd hmem (List.not_mem_nil _)⟩
          | true =>
              simp only [clientIn, hp, ht, hd, if_true]
              constructor
              · simp only [addClient, if_neg hne]
                exact hc
              · intro ctx c d2 hmem hctx
                simp only [List.mem_cons, List.not_mem_nil, or_false] at hmem
                rcases hmem with hmem | hmem
                · exact Event.noConfusion hmem
                · simp only [Event.writeTimeout.injEq] at hmem
                  obtain ⟨h1, _, _⟩ := hmem
                  rw [h1] at hctx
                  exact absurd hctx.symm hne

/- The stability of clientIn_stable_step extended along a whole ingress
trace. -/
theorem clientInTrace_stable (cfg : HopCfg) :
    ∀ (inputs : List Input) (tbl : IncomingConnections) (nid : Nat)
      (raddr : NetAddr) (conn : Conn), tbl raddr.str = some conn →
      (clientInTrace cfg tbl nid inputs).tbl raddr.str = some conn ∧
      (∀ ctx c d, Event.writeTimeout ctx c d ∈
          (clientInTrace cfg tbl nid inputs).events →
        ctx.str = raddr.str → c = conn) := by
  intro inputs
  induction inputs with
  | nil =>
      intro tbl nid raddr conn hc
      simp only [clientInTrace]
      exact ⟨hc, by intro ctx c d hmem _; exact absurd hmem (List.not_mem_nil _)⟩
  | cons inp rest ih =>
      intro tbl nid raddr conn hc
      have hstep := clientIn_stable_step cfg tbl nid inp raddr conn hc
      have hrec := ih (clientIn cfg tbl nid inp).tbl
        (clientIn cfg tbl nid inp).nextId raddr conn hstep.1
      simp only [clientInTrace]
      refine ⟨hrec.1, ?_⟩
      intro ctx c d hmem hctx
      rcases List.mem_append.1 hmem with hm | hm
      · exact hstep.2 ctx c d hm hctx
      · exact hrec.2 ctx c d hm hctx

/-!  Claim theorems.  -/

/-- Claim C2: for every cipher adapter whose Decrypt inverts its Encrypt on
equal-length buffers, and every payload p with 8 ≤ |p| ≤ 1484, decoding the
frame produced by encoding p under that adapter succeeds with no error and
returns exactly p — decryptPacket is a left inverse of encryptPacket. -/
theorem decryptPacket_leftInverse_encryptPacket (c : BlockCrypt)
    (hinv : ∀ b, c.decrypt (c.encrypt b) = b)
    (nonce p : List Nat) (hn : nonce.length = 8)
    (hlo : 8 ≤ p.length) (hhi : p.length ≤ 1484) :
    decryptPacket (some c) (encryptPacket (some c) nonce p) = (some p, none) := by
  have h16 : (8 : Nat) + 8 = 16 := rfl
  have htag8 : ((md5sum p).take 8).length = 8 := by
    simp [List.length_take, md5sum_length]
  have hnt : (nonce ++ (md5sum p).take 8).length = 16 := by
    simp only [List.length_append, hn, htag8]
  simp only [encryptPacket, decryptPacket, headerSize, nonceSize, checksumSize,
    checksumOffset, h16]
  rw [hinv, c.encrypt_length]
  have hlen : 16 ≤ ((nonce ++ (md5sum p).take 8) ++ p).length := by
    simp only [List.length_append, hn, htag8]
    omega
  rw [if_pos hlen, List.drop_left' hnt, List.append_assoc,
    List.drop_left' hn, List.take_left' htag8]
  simp

/-- Claim C3: for every non-nil cipher and frame of length at least 16,
decryptPacket decrypts the whole frame and returns the checksum-mismatch
error exactly when the first 8 bytes of MD5 over bytes [16, end) of the
decrypted frame differ from its bytes [8, 16); when they agree it returns
bytes [16, end) with no error. -/
theorem decryptPacket_active_long (c : BlockCrypt) (frame : List Nat)
    (h : 16 ≤ frame.length) :
    decryptPacket (some c) frame =
      if (md5sum ((c.decrypt frame).drop 16)).take 8 ≠
          ((c.decrypt frame).drop 8).take 8 then
        (none, some CodecErr.errChecksum)
      else (some ((c.decrypt frame).drop 16), none) := by
  have h16 : (8 : Nat) + 8 = 16 := rfl
  simp only [decryptPacket, headerSize, nonceSize, checksumSize, checksumOffset,
    h16]
  rw [if_pos h]

/-- Claim C5: for every non-nil cipher and payload p, encryptPacket builds a
buffer of length exactly 16 + |p| carrying the nonce at bytes [0, 8), the
first 8 bytes of MD5(p) at [8, 16) and p at [16, 16 + |p|), encrypts that
whole buffer in place, and the returned frame has length 16 + |p|. -/
theorem encryptPacket_active_frame (c : BlockCrypt) (nonce p : List Nat)
    (hn : nonce.length = 8) :
    ∃ B, encryptPacket (some c) nonce p = c.encrypt B ∧
      B.length = 16 + p.length ∧
      B.take 8 = nonce ∧
      (B.drop 8).take 8 = (md5sum p).take 8 ∧
      B.drop 16 = p ∧
      (encryptPacket (some c) nonce p).length = 16 + p.length := by
  have htag8 : ((md5sum p).take 8).length = 8 := by
    simp [List.length_take, md5sum_length]
  have hlenB : ((nonce ++ (md5sum p).take 8) ++ p).length = 16 + p.length := by
    simp only [List.length_append, hn, htag8]
  refine ⟨nonce ++ (md5sum p).take 8 ++ p, rfl, hlenB, ?_, ?_, ?_, ?_⟩
  · rw [List.append_assoc]
    exact List.take_left' hn
  · rw [List.append_assoc, List.drop_left' hn]
    exact List.take_left' htag8
  · exact List.drop_left' (by simp only [List.length_append, hn, htag8])
  · simp only [encryptPacket]
    rw [c.encrypt_length]
    exact hlenB

/-- Witness for C2: the round trip evaluated at a concrete adapter, nonce
and 8-byte payload. -/
theorem decryptPacket_leftInverse_encryptPacket_witness :
    decryptPacket (some idCrypt)
      (encryptPacket (some idCrypt) nonce0 [1, 2, 3, 4, 5, 6, 7, 8]) =
      (some [1, 2, 3, 4, 5, 6, 7, 8], none) :=
  decryptPacket_leftInverse_encryptPacket idCrypt (fun _ => rfl) nonce0 _
    (by decide) (by decide) (by decide)

/-- Witness for C3 at a concrete adapter and a concrete 16-byte frame. -/
theorem decryptPacket_active_long_witness :
    decryptPacket (some idCrypt) (List.replicate 16 0) =
      if (md5sum ((idCrypt.decrypt (List.replicate 16 0)).drop 16)).take 8 ≠
          ((idCrypt.decrypt (List.replicate 16 0)).drop 8).take 8 then
        (none, some CodecErr.errChecksum)
      else (some ((idCrypt.decrypt (List.replicate 16 0)).drop 16), none) :=
  decryptPacket_active_long idCrypt (List.replicate 16 0) (by decide)

/-- Witness for C5 at a concrete adapter, nonce and 2-byte payload. -/
theorem encryptPacket_active_frame_witness :
    ∃ B, encryptPacket (some idCrypt) nonce0 [9, 9] = idCrypt.encrypt B ∧
      B.length = 16 + 2 ∧
      B.take 8 = nonce0 ∧
      (B.drop 8).take 8 = (md5sum [9, 9]).take 8 ∧
      B.drop 16 = [9, 9] ∧
      (encryptPacket (some idCrypt) nonce0 [9, 9]).length = 16 + 2 :=
  encryptPacket_active_frame idCrypt nonce0 [9, 9] (by decide)

/-- Claim C6: both the ingress and the egress startup key derivations are
PBKDF2-HMAC-SHA1 with salt "GRASSHOPPER", 4096 iterations and a 32-byte
output, and a given passphrase always yields the same 32-byte key. -/
theorem startKeyDerivation_spec (cfg : StartKeys) :
    startPassIn cfg =
      pbkdf2HmacSha1 (strBytes cfg.KI) (strBytes "GRASSHOPPER") 4096 32 ∧
    startPassOut cfg =
      pbkdf2HmacSha1 (strBytes cfg.KO) (strBytes "GRASSHOPPER") 4096 32 ∧
    (startPassIn cfg).length = 32 ∧
    (startPassOut cfg).length = 32 ∧
    (∀ cfg' : StartKeys, cfg.KI = cfg'.KI →
      startPassIn cfg = startPassIn cfg') ∧
    (∀ cfg' : StartKeys, cfg.KO = cfg'.KO →
      startPassOut cfg = startPassOut cfg') := by
  refine ⟨rfl, rfl, pbkdf2_dkLen32_length _ _ _, pbkdf2_dkLen32_length _ _ _,
    ?_, ?_⟩
  · intro cfg' hk
    simp only [startPassIn, hk]
  · intro cfg' hk
    simp only [startPassOut, hk]

/-- Witness for C6 at concrete passphrases: a 32-byte ingress key, and two
configurations sharing the ingress passphrase derive the same key. -/
theorem startKeyDerivation_spec_witness :
    (startPassIn ⟨"alpha", "beta"⟩).length = 32 ∧
    startPassIn ⟨"alpha", "beta"⟩ = startPassIn ⟨"alpha", "gamma"⟩ :=
  ⟨(startKeyDerivation_spec ⟨"alpha", "beta"⟩).2.2.1,
   (startKeyDerivation_spec ⟨"alpha", "beta"⟩).2.2.2.2.1 ⟨"alpha", "gamma"⟩ rfl⟩

/-- Claim C8 is contradicted by the code: the --ci and --co flags default to
"qpp", which is not a member of allCryptoMethods, so a start command with
default cipher settings fails the startup cipher-name validation
(log.Fatal exits the process with a non-zero status). -/
theorem default_ciphers_fail_validation :
    defaultCI = "qpp" ∧ defaultCO = "qpp" ∧
    allCryptoMethods.contains defaultCI = false ∧
    allCryptoMethods.contains defaultCO = false ∧
    startCipherValidationPasses defaultCI defaultCO = false :=
  ⟨rfl, rfl, by decide, by decide, by decide⟩

/-- Claim C10: removal is total and idempotent — after removeClient a the
table has no entry keyed by a's string form, every other entry is
unchanged, removing an absent key leaves the table exactly as it was, and
removing twice equals removing once. -/
theorem removeClient_spec (tbl : IncomingConnections) (a : NetAddr) :
    removeClient tbl a a.str = none ∧
    (∀ k, k ≠ a.str → removeClient tbl a k = tbl k) ∧
    (tbl a.str = none → removeClient tbl a = tbl) ∧
    removeClient (removeClient tbl a) a = removeClient tbl a := by
  refine ⟨?_, ?_, ?_, ?_⟩
  · simp [removeClient]
  · intro k hk
    simp [removeClient, hk]
  · intro hnone
    funext k
    by_cases hk : k = a.str
    · simp only [removeClient, if_pos hk, hk]
      exact hnone.symm
    · simp [removeClient, hk]
  · funext k
    by_cases hk : k = a.str <;> simp [removeClient, hk]

/-- Witness for C10 at a concrete table, present and absent keys. -/
theorem removeClient_spec_witness :
    removeClient tableA ⟨"a"⟩ "a" = none ∧
    removeClient tableA ⟨"a"⟩ "b" = tableA "b" ∧
    removeClient emptyTable ⟨"a"⟩ = emptyTable ∧
    removeClient (removeClient tableA ⟨"a"⟩) ⟨"a"⟩ = removeClient tableA ⟨"a"⟩ :=
  ⟨(removeClient_spec tableA ⟨"a"⟩).1,
   (removeClient_spec tableA ⟨"a"⟩).2.1 "b" (by decide),
   (removeClient_spec emptyTable ⟨"a"⟩).2.2.1 rfl,
   (removeClient_spec tableA ⟨"a"⟩).2.2.2⟩

/-- Claim C1 is contradicted by the code: with an active cipher, a 10-byte
frame makes decryptPacket return nil data with a nil error rather than an
error, and clientIn then proceeds — it creates a session for the unknown
client and issues an upstream write (the 16-byte frame encoding the empty
payload), instead of dropping the datagram. -/
theorem short_frame_not_dropped :
    decryptPacket (some idCrypt) (List.replicate 10 0) = (none, none) ∧
    clientIn cfgBoth emptyTable 0
        ⟨List.replicate 10 0, ⟨"client"⟩, nonce0, 0, true⟩ =
      ⟨addClient emptyTable ⟨"client"⟩ ⟨0, "10.0.0.1:3000"⟩, 1,
       [Event.readTimeout ⟨"client"⟩ ⟨0, "10.0.0.1:3000"⟩,
        Event.writeTimeout ⟨"client"⟩ ⟨0, "10.0.0.1:3000"⟩
          (encryptPacket (some idCrypt) nonce0 [])]⟩ ∧
    (clientIn cfgBoth emptyTable 0
        ⟨List.replicate 10 0, ⟨"client"⟩, nonce0, 0, true⟩).tbl "client" =
      some ⟨0, "10.0.0.1:3000"⟩ :=
  ⟨rfl, rfl, rfl⟩

/-- Claim C4 is contradicted by the code: a read completion whose data fails
to decode under the egress cipher is logged and dropped, but the in-loop
`continue` skips the re-arm, so no new read is queued on that upstream
socket; a completion that decodes successfully does re-arm the read. -/
theorem decode_error_skips_rearm :
    switcherDispatch cfgBoth emptyTable
        ⟨false, false, ⟨0, "10.0.0.1:3000"⟩, ⟨"client"⟩, List.replicate 16 0⟩
        nonce0 =
      (emptyTable, []) ∧
    switcherDispatch cfgPlain emptyTable
        ⟨false, false, ⟨0, "10.0.0.1:3000"⟩, ⟨"client"⟩, [1, 2, 3]⟩ nonce0 =
      (emptyTable,
       [Event.clientWrite ⟨"client"⟩ [1, 2, 3],
        Event.readTimeout ⟨"client"⟩ ⟨0, "10.0.0.1:3000"⟩]) :=
  ⟨rfl, rfl⟩

/-- Claim C7: when the first datagram from an unknown client survives the
ingress pipeline, clientIn selects the upstream next hop by one draw over
the whole configured next-hop list, dials it, stores that single connection
in the session table and writes to it; and as long as a client's entry is
in the table, every further datagram whose context is that client address
is written to that same stored connection, and the entry is unchanged. -/
theorem nexthop_selection_and_stability :
    (∀ (cfg : HopCfg) (tbl : IncomingConnections) (nid : Nat) (inp : Input)
        (d : List Nat),
        clientPipeline cfg inp.data inp.raddr = some d →
        tbl inp.raddr.str = none →
        inp.dialOk = true →
        0 < cfg.nextHops.length →
        clientIn cfg tbl nid inp =
          ⟨addClient tbl inp.raddr
             ⟨nid, cfg.nextHops.getD (inp.rnd % cfg.nextHops.length) ""⟩,
           nid + 1,
           [Event.readTimeout inp.raddr
              ⟨nid, cfg.nextHops.getD (inp.rnd % cfg.nextHops.length) ""⟩,
            Event.writeTimeout inp.raddr
              ⟨nid, cfg.nextHops.getD (inp.rnd % cfg.nextHops.length) ""⟩
              (encryptPacket cfg.crypterOut inp.nonce d)]⟩ ∧
          inp.rnd % cfg.nextHops.length < cfg.nextHops.length ∧
          cfg.nextHops.getD (inp.rnd % cfg.nextHops.length) "" ∈
            cfg.nextHops) ∧
    (∀ (cfg : HopCfg) (inputs : List Input) (tbl : IncomingConnections)
        (nid : Nat) (raddr : NetAddr) (conn : Conn),
        tbl raddr.str = some conn →
        (clientInTrace cfg tbl nid inputs).tbl raddr.str = some conn ∧
        (∀ ctx c d, Event.writeTimeout ctx c d ∈
            (clientInTrace cfg tbl nid inputs).events →
          ctx.str = raddr.str → c = conn)) := by
  constructor
  · intro cfg tbl nid inp d hp ht hd hL
    have hlt : inp.rnd % cfg.nextHops.length < cfg.nextHops.length :=
      Nat.mod_lt _ hL
    refine ⟨?_, hlt, ?_⟩
    · simp only [clientIn, hp, ht, hd, if_true]
    · rw [List.getD_eq_getElem _ _ hlt]
      exact List.getElem_mem hlt
  · exact fun cfg inputs => clientInTrace_stable cfg inputs

/-- Witness for C7: a concrete creation step over a one-element next-hop
list, and a concrete stability run over an existing session. -/
theorem nexthop_selection_and_stability_witness :
    (clientIn cfgPlain emptyTable 0 ⟨[1, 2, 3], ⟨"c"⟩, nonce0, 5, true⟩ =
      ⟨addClient emptyTable ⟨"c"⟩
         ⟨0, cfgPlain.nextHops.getD (5 % cfgPlain.nextHops.length) ""⟩, 1,
       [Event.readTimeout ⟨"c"⟩
          ⟨0, cfgPlain.nextHops.getD (5 % cfgPlain.nextHops.length) ""⟩,
        Event.writeTimeout ⟨"c"⟩
          ⟨0, cfgPlain.nextHops.getD (5 % cfgPlain.nextHops.length) ""⟩
          (encryptPacket cfgPlain.crypterOut nonce0 [1, 2, 3])]⟩ ∧
      5 % cfgPlain.nextHops.length < cfgPlain.nextHops.length ∧
      cfgPlain.nextHops.getD (5 % cfgPlain.nextHops.length) "" ∈
        cfgPlain.nextHops) ∧
    ((clientInTrace cfgPlain tableA 1
        [⟨[9], ⟨"a"⟩, nonce0, 0, true⟩]).tbl "a" =
          some ⟨0, "10.0.0.1:3000"⟩ ∧
     (∀ ctx c d, Event.writeTimeout ctx c d ∈
         (clientInTrace cfgPlain tableA 1
           [⟨[9], ⟨"a"⟩, nonce0, 0, true⟩]).events →
       ctx.str = "a" → c = ⟨0, "10.0.0.1:3000"⟩)) :=
  ⟨nexthop_selection_and_stability.1 cfgPlain emptyTable 0
     ⟨[1, 2, 3], ⟨"c"⟩, nonce0, 5, true⟩ [1, 2, 3] rfl rfl rfl (by decide),
   nexthop_selection_and_stability.2 cfgPlain
     [⟨[9], ⟨"a"⟩, nonce0, 0, true⟩] tableA 1 ⟨"a"⟩ ⟨0, "10.0.0.1:3000"⟩ rfl⟩

/-- Claim C9: encryptPacket never mutates its input payload buffer — with a
cipher set it writes only into a freshly allocated packet buffer (a
reference beyond every pre-existing one, and every pre-existing buffer,
the payload included, is unchanged), the fresh buffer holds exactly the
frame the functional encryptPacket describes, and with a nil cipher the
input reference is returned as is with the heap untouched. -/
theorem encryptPacket_no_mutation (c : BlockCrypt) (nonce : List Nat)
    (h : Heap) (dataRef : Nat) (_hr : dataRef < h.length)
    (hn : nonce.length = 8) :
    (encryptPacketHeap (some c) nonce h dataRef).2 = h.length ∧
    (∀ j, j < h.length →
      (encryptPacketHeap (some c) nonce h dataRef).1.bufAt j = h.bufAt j) ∧
    (encryptPacketHeap (some c) nonce h dataRef).1.bufAt
        (encryptPacketHeap (some c) nonce h dataRef).2 =
      encryptPacket (some c) nonce (h.bufAt dataRef) ∧
    encryptPacketHeap none nonce h dataRef = (h, dataRef) := by
  have h16 : (8 : Nat) + 8 = 16 := rfl
  refine ⟨rfl, ?_, ?_, rfl⟩
  · intro j hj
    have hjne : j ≠ h.length := Nat.ne_of_lt hj
    simp only [encryptPacketHeap]
    rw [bufAt_setBuf_ne _ _ _ _ hjne, bufAt_setBuf_ne _ _ _ _ hjne,
      bufAt_setBuf_ne _ _ _ _ hjne, bufAt_setBuf_ne _ _ _ _ hjne,
      bufAt_append_lt _ _ _ hj]
  · have w1 : writeAt (List.replicate ((h.bufAt dataRef).length + 16) 0) 16
        (h.bufAt dataRef) = List.replicate 16 0 ++ h.bufAt dataRef := by
      simp only [writeAt, List.take_replicate, List.drop_replicate]
      rw [Nat.min_eq_left (by omega), Nat.sub_eq_zero_of_le (by omega)]
      simp
    have hdrop8 : (List.replicate 16 (0 : Nat) ++ h.bufAt dataRef).drop 8 =
        List.replicate 8 0 ++ h.bufAt dataRef := by
      rw [show List.replicate 16 (0 : Nat) =
            List.replicate 8 0 ++ List.replicate 8 0 by
          rw [← List.replicate_add],
        List.append_assoc]
      exact List.drop_left' (by simp)
    have w2 : writeAt (List.replicate 16 0 ++ h.bufAt dataRef) 0 nonce =
        nonce ++ (List.replicate 8 0 ++ h.bufAt dataRef) := by
      simp only [writeAt, List.take_zero, List.nil_append, Nat.zero_add, hn,
        hdrop8]
    have w3 : (nonce ++ (List.replicate 8 0 ++ h.bufAt dataRef)).drop 16 =
        h.bufAt dataRef := by
      rw [← List.append_assoc]
      exact List.drop_left' (by simp [hn])
    have htag8 : ((md5sum (h.bufAt dataRef)).take 8).length = 8 := by
      simp [List.length_take, md5sum_length]
    have w4 : writeAt (nonce ++ (List.replicate 8 0 ++ h.bufAt dataRef)) 8
        ((md5sum (h.bufAt dataRef)).take 8) =
        (nonce ++ (md5sum (h.bufAt dataRef)).take 8) ++ h.bufAt dataRef := by
      simp only [writeAt, htag8, h16, w3]
      rw [List.take_left' hn]
    simp only [encryptPacketHeap, headerSize, nonceSize, checksumSize,
      nonceOffset, checksumOffset, h16]
    rw [bufAt_append_self, w1, bufAt_chain1, w2, bufAt_chain2, w3, w4,
      bufAt_chain3, bufAt_chain4]
    simp only [encryptPacket, checksumSize, List.append_assoc]

/-- Witness for C9 at a concrete adapter, nonce and one-buffer heap. -/
theorem encryptPacket_no_mutation_witness :
    (encryptPacketHeap (some idCrypt) nonce0 [[1, 2, 3]] 0).2 = 1 ∧
    (∀ j, j < 1 →
      (encryptPacketHeap (some idCrypt) nonce0 [[1, 2, 3]] 0).1.bufAt j =
        Heap.bufAt [[1, 2, 3]] j) ∧
    (encryptPacketHeap (some idCrypt) nonce0 [[1, 2, 3]] 0).1.bufAt
        (encryptPacketHeap (some idCrypt) nonce0 [[1, 2, 3]] 0).2 =
      encryptPacket (some idCrypt) nonce0 (Heap.bufAt [[1, 2, 3]] 0) ∧
    encryptPacketHeap none nonce0 [[1, 2, 3]] 0 = ([[1, 2, 3]], 0) :=
  encryptPacket_no_mutation idCrypt nonce0 [[1, 2, 3]] 0 (by decide) (by decide)

end Grasshopper
